import Mathlib

/-!
Verification of the personal-finance-tracker core against its design
specification.  The definitions below are a shallow embedding of the
component `src/components/FinanceTracker.tsx`:

  - JavaScript numbers are modelled as `Option ℚ`, with `none` standing for
    NaN (the value of `parseFloat` on a string with no leading numeral);
    floating-point rounding is not modelled, the additive structure is.
  - `Date.now()` is modelled as a `Nat` argument (milliseconds); the stored
    `date` field keeps the raw milliseconds, since `toISOString` is an
    injective rendering used only for display.
  - React state updates are modelled as a step function on an explicit
    component-state record; each UI event becomes one transition, with the
    category-reset effect (which re-runs whenever `formData.type` changes)
    folded into the type-toggle transition, mirroring that effects settle
    before the next user event.
  - `JSON.parse` (a platform built-in that throws on malformed input) is
    modelled as an explicit `parse` parameter returning `Except`; the load
    effect applies it with no exception handler, exactly as the source does.
-/

namespace FinanceTracker

/-- Transaction type: the closed enumeration `'income' | 'expense'`. -/
inductive TxType where
  | income
  | expense
deriving DecidableEq, Repr

/-- The `Transaction` interface of FinanceTracker.tsx.  `amount` is a
JavaScript number (`none` = NaN); `date` keeps the clock value in
milliseconds that `new Date().toISOString()` renders. -/
structure Transaction where
  id : String
  description : String
  amount : Option ℚ
  type : TxType
  category : String
  date : Nat
deriving DecidableEq, Repr

/-- The `categories` constant: category options per transaction type. -/
def categories : TxType → List String
  | .income => ["Salary", "Freelance", "Investment"]
  | .expense => ["Food", "Transport", "Shopping", "Entertainment", "Bills"]

/-- Rational addition written through `mkRat`, so that concrete component
states evaluate inside `decide` (the library `Rat.add` is sealed against
unfolding); `ratNormAdd_eq` below proves it is the addition of `ℚ`. -/
def ratNormAdd (a b : ℚ) : ℚ := mkRat (a.num * b.den + b.num * a.den) (a.den * b.den)

/-- Rational subtraction written through `mkRat`; `ratNormSub_eq` below
proves it is the subtraction of `ℚ`. -/
def ratNormSub (a b : ℚ) : ℚ := mkRat (a.num * b.den - b.num * a.den) (a.den * b.den)

/-- JavaScript addition restricted to the values in play: NaN (`none`)
propagates through `+`. -/
def jsAdd : Option ℚ → Option ℚ → Option ℚ
  | some a, some b => some (ratNormAdd a b)
  | _, _ => none

/-- JavaScript subtraction: NaN (`none`) propagates through `-`. -/
def jsSub : Option ℚ → Option ℚ → Option ℚ
  | some a, some b => some (ratNormSub a b)
  | _, _ => none

/-- Longest leading run of decimal digits of a character list, as digit
values, together with the rest of the list. -/
def takeDigits : List Char → List Nat × List Char
  | [] => ([], [])
  | c :: cs =>
    if c.isDigit then
      ((c.toNat - 48) :: (takeDigits cs).1, (takeDigits cs).2)
    else ([], c :: cs)

/-- Digit list (most significant first) to natural number. -/
def digitsToNat (ds : List Nat) : Nat := ds.foldl (fun a d => 10 * a + d) 0

/-- The rational denoted by a decimal numeral with integer digits `ds`,
fraction digits `fr` and an optional leading minus sign, built through
`mkRat` so that it evaluates inside `decide`. -/
def decimalToRat (neg : Bool) (ds fr : List Nat) : ℚ :=
  let magnitude := mkRat (digitsToNat ds * 10 ^ fr.length + digitsToNat fr) (10 ^ fr.length)
  if neg then -magnitude else magnitude

/-- Model of JavaScript `parseFloat` on plain decimal strings: an optional
sign, integer digits, an optional point and fraction digits, ignoring any
trailing garbage (parseFloat stops at the first invalid character).  `none`
is NaN, returned when no digits can be read.  Exponent notation and leading
whitespace are not modelled; no input in this development uses them. -/
def jsParseFloat (s : String) : Option ℚ :=
  let signAndRest : Bool × List Char :=
    match s.toList with
    | '-' :: rest => (true, rest)
    | '+' :: rest => (false, rest)
    | cs => (false, cs)
  let ip := takeDigits signAndRest.2
  match ip.1, ip.2 with
  | [], '.' :: rest2 =>
    let fr := (takeDigits rest2).1
    if fr.isEmpty then none
    else some (decimalToRat signAndRest.1 [] fr)
  | [], _ => none
  | ds, '.' :: rest2 => some (decimalToRat signAndRest.1 ds (takeDigits rest2).1)
  | ds, _ => some (decimalToRat signAndRest.1 ds [])

/-- Model of the JavaScript string `trim`: drop whitespace from both ends.
Written over the character list so that concrete states evaluate inside
`decide` (the library `String.trim` does not reduce in the kernel). -/
def jsTrim (s : String) : String :=
  ((s.toList.dropWhile Char.isWhitespace).reverse.dropWhile Char.isWhitespace).reverse.asString

/-- The modal form state (`formData`): description and amount are the raw
input strings. -/
structure FormData where
  description : String
  amount : String
  type : TxType
  category : String
deriving DecidableEq, Repr

/-- The initial / reset value of `formData`. -/
def initialFormData : FormData :=
  { description := "", amount := "", type := .expense, category := "Food" }

/-- The transaction constructed inside `handleSubmit`: id is
`Date.now().toString()`, description is trimmed, amount is
`parseFloat(formData.amount)`, date is the current clock value. -/
def newTransaction (now : Nat) (formData : FormData) : Transaction :=
  { id := toString now
    description := jsTrim formData.description
    amount := jsParseFloat formData.amount
    type := formData.type
    category := formData.category
    date := now }

/-- `handleSubmit` of FinanceTracker.tsx.  The guard is
`!formData.description.trim() || !formData.amount` (a string is falsy
exactly when it is empty); on guard failure the handler returns early and
no state setter runs (`none`); otherwise the new transaction is prepended
(`some` of the new list). -/
def handleSubmit (now : Nat) (formData : FormData) (prev : List Transaction) :
    Option (List Transaction) :=
  if jsTrim formData.description == "" || formData.amount == "" then none
  else some (newTransaction now formData :: prev)

/-- `deleteTransaction` of FinanceTracker.tsx: the state update keeps every
transaction whose id differs (`t.id !== id`).  The arrow function body is a
single statement with no `return`, so its JavaScript return value is
`undefined`, modelled as `none : Option Bool` in the second component. -/
def deleteTransaction (id : String) (prev : List Transaction) :
    List Transaction × Option Bool :=
  (prev.filter fun t => t.id != id, none)

/-- The filter criterion state: `'all' | 'income' | 'expense'`. -/
inductive FilterCrit where
  | all
  | income
  | expense
deriving DecidableEq, Repr

/-- `filteredTransactions` of FinanceTracker.tsx: keep a transaction when
the criterion is `all`, otherwise when its type matches the criterion. -/
def filteredTransactions (filter : FilterCrit) (transactions : List Transaction) :
    List Transaction :=
  transactions.filter fun transaction =>
    match filter with
    | .all => true
    | .income => transaction.type == TxType.income
    | .expense => transaction.type == TxType.expense

/-- The record returned by `calculateStats`. -/
structure Stats where
  income : Option ℚ
  expenses : Option ℚ
  balance : Option ℚ
deriving DecidableEq, Repr

/-- `calculateStats` of FinanceTracker.tsx: filter-then-reduce over the full
transaction list (never the filtered view), with JavaScript addition and
subtraction. -/
def calculateStats (transactions : List Transaction) : Stats :=
  let income := (transactions.filter fun t => t.type == TxType.income).foldl
    (fun sum t => jsAdd sum t.amount) (some 0)
  let expenses := (transactions.filter fun t => t.type == TxType.expense).foldl
    (fun sum t => jsAdd sum t.amount) (some 0)
  { income := income, expenses := expenses, balance := jsSub income expenses }

/-- The load effect run on mount: read the durable slot
(`localStorage.getItem`, `none` when absent); when a string is present,
apply `JSON.parse` to it and install the result.  `JSON.parse` is a
platform built-in that throws on malformed input, modelled as the `parse`
parameter returning `Except`; the source wraps the call in no try/catch, so
a parse error propagates to the caller unchanged. -/
def loadTransactions (parse : String → Except String (List Transaction))
    (slot : Option String) : Except String (List Transaction) :=
  match slot with
  | none => .ok []
  | some saved => parse saved

/-- The component state of FinanceTracker: the four `useState` hooks. -/
structure AppState where
  transactions : List Transaction
  showModal : Bool
  filter : FilterCrit
  formData : FormData
deriving DecidableEq, Repr

/-- The initial component state. -/
def initialState : AppState :=
  { transactions := [], showModal := false, filter := .all, formData := initialFormData }

/-- One UI event.  `setType` carries the category-reset effect that re-runs
whenever `formData.type` changes; `setCategory` comes from the select whose
options are exactly `categories[formData.type]`; `submit` carries the
`Date.now()` value observed by `handleSubmit`. -/
inductive Event where
  | setDescription (d : String)
  | setAmount (a : String)
  | setType (t : TxType)
  | setCategory (c : String)
  | submit (now : Nat)
  | deleteTx (id : String)
  | setFilter (f : FilterCrit)
  | openModal
  | closeModal
deriving DecidableEq, Repr

/-- The transition function of the component.  Clicking the already-selected
type leaves the state unchanged (the effect dependency `formData.type` did
not change); selecting a category is only possible among the options the
select offers for the current type; a successful submit installs the new
list, resets the form and closes the modal, a failed one changes nothing. -/
def step (s : AppState) : Event → AppState
  | .setDescription d => { s with formData := { s.formData with description := d } }
  | .setAmount a => { s with formData := { s.formData with amount := a } }
  | .setType t =>
    if t == s.formData.type then s
    else { s with formData :=
      { s.formData with type := t, category := (categories t).headD "" } }
  | .setCategory c =>
    if c ∈ categories s.formData.type then
      { s with formData := { s.formData with category := c } }
    else s
  | .submit now =>
    match handleSubmit now s.formData s.transactions with
    | none => s
    | some txs =>
      { s with transactions := txs, formData := initialFormData, showModal := false }
  | .deleteTx id => { s with transactions := (deleteTransaction id s.transactions).1 }
  | .setFilter f => { s with filter := f }
  | .openModal => { s with showModal := true }
  | .closeModal => { s with showModal := false }

/-- Run a sequence of UI events from the initial state. -/
def run (events : List Event) : AppState := events.foldl step initialState

/-- The `Date.now()` values carried by the submit events of a run. -/
def submitTimes (events : List Event) : List Nat :=
  events.filterMap fun e =>
    match e with
    | .submit now => some now
    | _ => none

/-- The type/category invariant of the data model: the selected form
category is an option of the selected form type, and every stored
transaction carries a category from the set of its type. -/
def CategoryOk (s : AppState) : Prop :=
  s.formData.category ∈ categories s.formData.type ∧
  ∀ t ∈ s.transactions, t.category ∈ categories t.type

/-- The specification reading of the filter criterion: which transaction
types a criterion selects. -/
def matchesFilter : FilterCrit → TxType → Prop
  | .all, _ => True
  | .income, ty => ty = TxType.income
  | .expense, ty => ty = TxType.expense

/-- Value of a decimal digit character. -/
def digitVal (c : Char) : Nat := c.toNat - 48

/-- The decimal digit characters of a natural number, most significant
first, matching what `Nat.toDigitsCore` produces. -/
def natChars (n : Nat) : List Char :=
  if h : n / 10 = 0 then [Nat.digitChar (n % 10)]
  else
    have : n / 10 < n :=
      Nat.div_lt_self (Nat.pos_of_ne_zero fun h0 => h (by simp [h0])) (by decide)
    natChars (n / 10) ++ [Nat.digitChar (n % 10)]

/-- Recover a natural number from its decimal digit characters. -/
def decodeChars (l : List Char) : Nat := l.foldl (fun a c => 10 * a + digitVal c) 0

/-- Fixture: an expense of 4.5 with id "1". -/
def txCoffee : Transaction :=
  { id := "1", description := "Coffee", amount := some (mkRat 9 2), type := TxType.expense,
    category := "Food", date := 1 }

/-- Fixture: an income of 1000 with id "2". -/
def txSalary : Transaction :=
  { id := "2", description := "Salary", amount := some 1000, type := TxType.income,
    category := "Salary", date := 2 }

/-- Fixture: a second expense that shares id "1" with `txCoffee`. -/
def txDup : Transaction :=
  { id := "1", description := "Tea", amount := some 2, type := TxType.expense,
    category := "Food", date := 3 }

/-- Fixture: a fully valid form input. -/
def formCoffee : FormData :=
  { description := "Coffee", amount := "4.50", type := TxType.expense, category := "Food" }

/-- Fixture: a component state holding one income and one expense. -/
def stateW : AppState :=
  { transactions := [txSalary, txCoffee], showModal := false, filter := .all,
    formData := initialFormData }

theorem ratNormAdd_eq (a b : ℚ) : ratNormAdd a b = a + b := by
  have ha : (a.den : ℚ) ≠ 0 := Nat.cast_ne_zero.mpr a.den_nz
  have hb : (b.den : ℚ) ≠ 0 := Nat.cast_ne_zero.mpr b.den_nz
  rw [ratNormAdd, Rat.mkRat_eq_div]
  push_cast
  conv_rhs => rw [← Rat.num_div_den a, ← Rat.num_div_den b, div_add_div _ _ ha hb]
  ring_nf

theorem ratNormSub_eq (a b : ℚ) : ratNormSub a b = a - b := by
  have ha : (a.den : ℚ) ≠ 0 := Nat.cast_ne_zero.mpr a.den_nz
  have hb : (b.den : ℚ) ≠ 0 := Nat.cast_ne_zero.mpr b.den_nz
  rw [ratNormSub, Rat.mkRat_eq_div]
  push_cast
  conv_rhs => rw [← Rat.num_div_den a, ← Rat.num_div_den b, div_sub_div _ _ ha hb]
  ring_nf

theorem jsParseFloat_empty : jsParseFloat "" = none := rfl

theorem digitVal_digitChar (d : Nat) (h : d < 10) : digitVal (Nat.digitChar d) = d := by
  have hfin : ∀ x : Fin 10, digitVal (Nat.digitChar x.val) = x.val := by decide
  exact hfin ⟨d, h⟩

theorem decodeChars_append_singleton (l : List Char) (c : Char) :
    decodeChars (l ++ [c]) = 10 * decodeChars l + digitVal c := by
  simp [decodeChars, List.foldl_append]

theorem decodeChars_natChars (n : Nat) : decodeChars (natChars n) = n := by
  induction n using Nat.strong_induction_on with
  | _ n ih =>
    rw [natChars]
    by_cases h : n / 10 = 0
    · rw [dif_pos h]
      have hn : n < 10 := by omega
      have hmod : n % 10 = n := Nat.mod_eq_of_lt hn
      simp [decodeChars, hmod, digitVal_digitChar n hn]
    · rw [dif_neg h]
      have hpos : 0 < n := by omega
      have hlt : n / 10 < n := Nat.div_lt_self hpos (by decide)
      rw [decodeChars_append_singleton, ih _ hlt,
        digitVal_digitChar (n % 10) (Nat.mod_lt n (by decide))]
      exact Nat.div_add_mod n 10

theorem toDigitsCore_eq_natChars (fuel : Nat) :
    ∀ (n : Nat) (ds : List Char), n < fuel →
      Nat.toDigitsCore 10 fuel n ds = natChars n ++ ds := by
  induction fuel with
  | zero => intro n ds h; exact absurd h (Nat.not_lt_zero n)
  | succ f ih =>
    intro n ds h
    by_cases h10 : n / 10 = 0
    · simp [Nat.toDigitsCore, natChars, h10]
    · have hpos : 0 < n := by omega
      have hlt : n / 10 < f := by
        have := Nat.div_lt_self hpos (by decide : 1 < 10)
        omega
      have hrec : Nat.toDigitsCore 10 (f + 1) n ds
          = Nat.toDigitsCore 10 f (n / 10) (Nat.digitChar (n % 10) :: ds) := by
        simp [Nat.toDigitsCore, h10]
      rw [hrec, ih _ _ hlt]
      conv_rhs => rw [natChars]
      rw [dif_neg h10]
      simp

theorem natToString_injective (a b : Nat) (h : toString a = toString b) : a = b := by
  have ha : toString a = (natChars a).asString := by
    show Nat.repr a = (natChars a).asString
    rw [Nat.repr, Nat.toDigits, toDigitsCore_eq_natChars (a + 1) a [] (Nat.lt_succ_self a)]
    simp
  have hb : toString b = (natChars b).asString := by
    show Nat.repr b = (natChars b).asString
    rw [Nat.repr, Nat.toDigits, toDigitsCore_eq_natChars (b + 1) b [] (Nat.lt_succ_self b)]
    simp
  have h2 : (natChars a).asString = (natChars b).asString := by
    rw [← ha, ← hb]; exact h
  have hchars : natChars a = natChars b := by
    simpa [List.asString] using congrArg String.data h2
  calc a = decodeChars (natChars a) := (decodeChars_natChars a).symm
    _ = decodeChars (natChars b) := by rw [hchars]
    _ = b := decodeChars_natChars b

theorem handleSubmit_eq_some (now : Nat) (fd : FormData) (prev l : List Transaction)
    (h : handleSubmit now fd prev = some l) : l = newTransaction now fd :: prev := by
  unfold handleSubmit at h
  split at h
  · exact absurd h (by simp)
  · exact (Option.some_inj.mp h).symm

theorem handleSubmit_none_iff (now : Nat) (fd : FormData) (prev : List Transaction) :
    handleSubmit now fd prev = none ↔ jsTrim fd.description = "" ∨ fd.amount = "" := by
  unfold handleSubmit
  split
  · rename_i hc
    simp only [Bool.or_eq_true, beq_iff_eq] at hc
    simpa using hc
  · rename_i hc
    simp only [Bool.or_eq_true, beq_iff_eq] at hc
    push_neg at hc
    simp [hc.1, hc.2]

/-- C1: the claim that a present but unparseable durable slot loads as the
empty sequence without a crash fails on the code: the load effect calls
JSON.parse with no exception handler, so a parse failure propagates to the
caller unchanged. -/
theorem C1_load_crash (parse : String → Except String (List Transaction)) (s e : String)
    (h : parse s = Except.error e) :
    loadTransactions parse (some s) = Except.error e := by
  simpa [loadTransactions] using h

theorem C1_load_crash_witness :
    loadTransactions (fun _ => Except.error "SyntaxError") (some "not json")
      = Except.error "SyntaxError" :=
  C1_load_crash (fun _ => Except.error "SyntaxError") "not json" "SyntaxError" rfl

/-- C2 counterexample: the amount string "0" does not parse to a positive
number, yet the submit handler creates and stores a transaction, so the
add operation is not a no-op on this input. -/
theorem C2_counterexample :
    jsParseFloat "0" = some 0 ∧ ¬ ((0 : ℚ) < 0) ∧
    handleSubmit 7 { description := "x", amount := "0", type := TxType.expense,
                     category := "Food" } [] =
      some [{ id := "7", description := "x", amount := some 0, type := TxType.expense,
              category := "Food", date := 7 }] :=
  ⟨by decide, by decide, by decide⟩

/-- C2 amended: the submit handler is a no-op exactly when the trimmed
description is empty or the amount string is empty; in that case the
component state (list, form, modal) is left entirely unchanged, so nothing
is persisted.  No positivity or parsability check is performed. -/
theorem C2_add_validation (now : Nat) (s : AppState) :
    (handleSubmit now s.formData s.transactions = none ↔
      jsTrim s.formData.description = "" ∨ s.formData.amount = "") ∧
    (handleSubmit now s.formData s.transactions = none → step s (.submit now) = s) := by
  refine ⟨handleSubmit_none_iff now s.formData s.transactions, fun h => ?_⟩
  simp [step, h]

theorem C2_add_validation_witness :
    handleSubmit 0 initialState.formData initialState.transactions = none ∧
    step initialState (Event.submit 0) = initialState := by
  have h := C2_add_validation 0 initialState
  have hnone : handleSubmit 0 initialState.formData initialState.transactions = none :=
    h.1.mpr (Or.inl rfl)
  exact ⟨hnone, h.2 hnone⟩



theorem categoryOk_step (s : AppState) (e : Event) (h : CategoryOk s) :
    CategoryOk (step s e) := by
  obtain ⟨hf, ht⟩ := h
  cases e with
  | setDescription d => exact ⟨hf, ht⟩
  | setAmount a => exact ⟨hf, ht⟩
  | setType t =>
    simp only [step]
    split
    · exact ⟨hf, ht⟩
    · refine ⟨?_, ht⟩
      cases t
      · show (categories TxType.income).headD "" ∈ categories TxType.income
        decide
      · show (categories TxType.expense).headD "" ∈ categories TxType.expense
        decide
  | setCategory c =>
    simp only [step]
    split
    · rename_i hc
      exact ⟨hc, ht⟩
    · exact ⟨hf, ht⟩
  | submit now =>
    simp only [step]
    split
    · exact ⟨hf, ht⟩
    · rename_i txs heq
      have htxs := handleSubmit_eq_some now s.formData s.transactions txs heq
      subst htxs
      refine ⟨?_, ?_⟩
      · show initialFormData.category ∈ categories initialFormData.type
        decide
      intro t htm
      rcases List.mem_cons.mp htm with h1 | h2
      · subst h1; exact hf
      · exact ht t h2
  | deleteTx id =>
    refine ⟨hf, ?_⟩
    intro t htm
    exact ht t (List.mem_of_mem_filter htm)
  | setFilter f => exact ⟨hf, ht⟩
  | openModal => exact ⟨hf, ht⟩
  | closeModal => exact ⟨hf, ht⟩

/-- C3 amended: every component state reachable through the UI satisfies the
type/category invariant, for the store and for the form (the category reset
on type change and the select option restriction maintain it); the submit
handler itself, however, performs no type/category validation (see the
counterexample). -/
theorem C3_category_invariant (events : List Event) : CategoryOk (run events) := by
  have aux : ∀ (es : List Event) (s : AppState), CategoryOk s → CategoryOk (es.foldl step s) := by
    intro es
    induction es with
    | nil => exact fun s hs => hs
    | cons e es ih => exact fun s hs => ih _ (categoryOk_step s e hs)
  refine aux events initialState ⟨by decide, ?_⟩
  intro t htm
  exact absurd htm (List.not_mem_nil t)

theorem C3_category_invariant_witness :
    CategoryOk (run [Event.setType TxType.income, Event.setDescription "Pay"]) :=
  C3_category_invariant [Event.setType TxType.income, Event.setDescription "Pay"]

/-- C3 counterexample: the submit handler inserts a mismatched type/category
pair rather than rejecting it: an income transaction with expense category
"Food" is created and stored. -/
theorem C3_counterexample :
    "Food" ∉ categories TxType.income ∧
    handleSubmit 1 { description := "a", amount := "1", type := TxType.income,
                     category := "Food" } [] =
      some [{ id := "1", description := "a", amount := some 1, type := TxType.income,
              category := "Food", date := 1 }] :=
  ⟨by decide, by decide⟩

/-- C4 counterexample: deleting a present id returns no boolean at all; the
JavaScript return value of deleteTransaction is undefined (modelled `none`),
never `true`. -/
theorem C4_counterexample :
    txCoffee ∈ [txCoffee] ∧ txCoffee.id = "1" ∧
    (deleteTransaction "1" [txCoffee]).2 = none ∧
    ∀ b : Bool, (deleteTransaction "1" [txCoffee]).2 ≠ some b :=
  ⟨by decide, rfl, rfl, by decide⟩

/-- C4 amended: the delete operation returns no removal indicator (its
return value is always the JavaScript undefined); a removal occurred if and
only if a transaction with the id was present, observable only through the
list length. -/
theorem C4_delete_returns_nothing (id : String) (l : List Transaction) :
    (deleteTransaction id l).2 = none ∧
    ((deleteTransaction id l).1.length < l.length ↔ ∃ t ∈ l, t.id = id) := by
  refine ⟨rfl, ?_⟩
  constructor
  · intro h
    by_contra hne
    push_neg at hne
    have heq : l.filter (fun t => t.id != id) = l := List.filter_eq_self.mpr (by
      intro t htm
      simpa [bne_iff_ne] using hne t htm)
    have : (deleteTransaction id l).1 = l := heq
    rw [this] at h
    exact lt_irrefl _ h
  · rintro ⟨t, htm, hid⟩
    have : ¬ ((fun t => t.id != id) t = true) := by simp [hid]
    exact List.length_filter_lt_length_iff_exists.mpr ⟨t, htm, this⟩

/-- C9: the filtered list is the subsequence of transactions whose type
matches the criterion, in order, and the criterion all returns the full
list unchanged. -/
theorem C9_filter_matches (l : List Transaction) (c : FilterCrit) :
    filteredTransactions FilterCrit.all l = l ∧
    (filteredTransactions c l).Sublist l ∧
    ∀ t, t ∈ filteredTransactions c l ↔ t ∈ l ∧ matchesFilter c t.type := by
  refine ⟨List.filter_eq_self.mpr (fun a _ => rfl), List.filter_sublist l, ?_⟩
  intro t
  rw [filteredTransactions, List.mem_filter]
  cases c <;> simp [matchesFilter]

/-- C10: the delete operation removes every entry whose id equals the
argument, keeps every other transaction unchanged field-for-field, and
preserves the relative order of the remaining entries. -/
theorem C10_delete_frame (id : String) (l : List Transaction) :
    (∀ t ∈ (deleteTransaction id l).1, t.id ≠ id) ∧
    (deleteTransaction id l).1.Sublist l ∧
    (∀ t ∈ l, t.id ≠ id → t ∈ (deleteTransaction id l).1) := by
  refine ⟨?_, List.filter_sublist l, ?_⟩
  · intro t htm
    simpa [bne_iff_ne] using List.of_mem_filter htm
  · intro t htm hne
    exact List.mem_filter.mpr ⟨htm, by simpa [bne_iff_ne] using hne⟩

theorem C10_delete_frame_witness :
    (∀ t ∈ (deleteTransaction "1" [txCoffee, txDup, txSalary]).1, t.id ≠ "1") ∧
    (deleteTransaction "1" [txCoffee, txDup, txSalary]).1.Sublist [txCoffee, txDup, txSalary] ∧
    (∀ t ∈ [txCoffee, txDup, txSalary], t.id ≠ "1" →
      t ∈ (deleteTransaction "1" [txCoffee, txDup, txSalary]).1) :=
  C10_delete_frame "1" [txCoffee, txDup, txSalary]



theorem length_filter_ne_of_nodup (l : List Transaction) (id : String)
    (hnd : (l.map Transaction.id).Nodup) (hmem : ∃ t ∈ l, t.id = id) :
    (l.filter fun t => t.id != id).length + 1 = l.length := by
  induction l with
  | nil =>
    rcases hmem with ⟨t, htm, _⟩
    cases htm
  | cons a as ih =>
    rw [List.map_cons, List.nodup_cons] at hnd
    rcases hmem with ⟨t, htm, hid⟩
    rcases List.mem_cons.mp htm with rfl | hmem2
    · have hfa : (t.id != id) = false := by simp [hid]
      have hall : ∀ u ∈ as, (u.id != id) = true := by
        intro u hu
        simp only [bne_iff_ne, ne_eq]
        intro he
        exact hnd.1 (List.mem_map.mpr ⟨u, hu, he.trans hid.symm⟩)
      rw [List.filter_cons, hfa]
      simp only [if_neg Bool.false_ne_true, List.length_cons]
      rw [List.filter_eq_self.mpr hall]
    · have hane : (a.id != id) = true := by
        simp only [bne_iff_ne, ne_eq]
        intro he
        exact hnd.1 (List.mem_map.mpr ⟨t, hmem2, hid.trans he.symm⟩)
      have hih := ih hnd.2 ⟨t, hmem2, hid⟩
      have hfc : List.filter (fun u => u.id != id) (a :: as)
          = a :: List.filter (fun u => u.id != id) as := List.filter_cons_of_pos hane
      rw [hfc]
      simp only [List.length_cons]
      omega

/-- C6: on a store state satisfying the unique-id invariant, deleting the id
of a stored transaction removes it (no entry with that id remains) and
shrinks the list by exactly one; deleting an absent id leaves the length
unchanged. -/
theorem C6_delete_length (l : List Transaction) (id : String) :
    ((l.map Transaction.id).Nodup → ∀ t ∈ l, t.id = id →
      ((deleteTransaction id l).1.length + 1 = l.length ∧
        ∀ u ∈ (deleteTransaction id l).1, u.id ≠ id)) ∧
    ((∀ t ∈ l, t.id ≠ id) → (deleteTransaction id l).1.length = l.length) := by
  constructor
  · intro hnd t htm hid
    constructor
    · exact length_filter_ne_of_nodup l id hnd ⟨t, htm, hid⟩
    · intro u hu
      simpa [bne_iff_ne] using List.of_mem_filter hu
  · intro hall
    have : l.filter (fun t => t.id != id) = l := by
      apply List.filter_eq_self.mpr
      intro a ha
      simpa [bne_iff_ne] using hall a ha
    show (l.filter fun t => t.id != id).length = l.length
    rw [this]

theorem C6_delete_length_witness :
    ((deleteTransaction "1" [txCoffee, txSalary]).1.length + 1 = [txCoffee, txSalary].length ∧
      ∀ u ∈ (deleteTransaction "1" [txCoffee, txSalary]).1, u.id ≠ "1") ∧
    (deleteTransaction "9" [txCoffee]).1.length = [txCoffee].length := by
  constructor
  · exact (C6_delete_length [txCoffee, txSalary] "1").1 (by decide) txCoffee (by decide) rfl
  · exact (C6_delete_length [txCoffee] "9").2 (by decide)

theorem foldl_jsAdd_eq (l : List Transaction) (q : Transaction → ℚ) :
    ∀ a : ℚ, (∀ t ∈ l, t.amount = some (q t)) →
      l.foldl (fun sum t => jsAdd sum t.amount) (some a) = some (a + (l.map q).sum) := by
  induction l with
  | nil =>
    intro a _
    simp
  | cons t ts ih =>
    intro a h
    have ht := h t (List.mem_cons_self t ts)
    rw [List.foldl_cons, ht]
    have hstep : jsAdd (some a) (some (q t)) = some (a + q t) := by
      simp [jsAdd, ratNormAdd_eq]
    rw [hstep, ih (a + q t) (fun u hu => h u (List.mem_cons_of_mem t hu))]
    rw [List.map_cons, List.sum_cons, add_assoc]

/-- C7: the statistics are computed over the whole store, independent of the
active filter criterion: income is the sum of amounts of income entries,
expenses the sum of amounts of expense entries, and balance their
difference. -/
theorem C7_stats (s : AppState) (f : FilterCrit) (q : Transaction → ℚ)
    (h : ∀ t ∈ s.transactions, t.amount = some (q t)) :
    (calculateStats s.transactions).income
      = some (((s.transactions.filter fun t => t.type == TxType.income).map q).sum) ∧
    (calculateStats s.transactions).expenses
      = some (((s.transactions.filter fun t => t.type == TxType.expense).map q).sum) ∧
    (calculateStats s.transactions).balance
      = some ((((s.transactions.filter fun t => t.type == TxType.income).map q).sum)
        - (((s.transactions.filter fun t => t.type == TxType.expense).map q).sum)) ∧
    calculateStats ({ s with filter := f }).transactions = calculateStats s.transactions := by
  have hinc := foldl_jsAdd_eq (s.transactions.filter fun t => t.type == TxType.income) q 0
    (fun t htm => h t (List.mem_of_mem_filter htm))
  have hexp := foldl_jsAdd_eq (s.transactions.filter fun t => t.type == TxType.expense) q 0
    (fun t htm => h t (List.mem_of_mem_filter htm))
  rw [zero_add] at hinc hexp
  refine ⟨?_, ?_, ?_, rfl⟩
  · show (s.transactions.filter fun t => t.type == TxType.income).foldl
      (fun sum t => jsAdd sum t.amount) (some 0) = _
    exact hinc
  · show (s.transactions.filter fun t => t.type == TxType.expense).foldl
      (fun sum t => jsAdd sum t.amount) (some 0) = _
    exact hexp
  · show jsSub ((s.transactions.filter fun t => t.type == TxType.income).foldl
      (fun sum t => jsAdd sum t.amount) (some 0))
      ((s.transactions.filter fun t => t.type == TxType.expense).foldl
        (fun sum t => jsAdd sum t.amount) (some 0)) = _
    rw [hinc, hexp]
    simp [jsSub, ratNormSub_eq]



theorem C7_stats_witness :
    (calculateStats stateW.transactions).income
      = some (((stateW.transactions.filter fun t => t.type == TxType.income).map
          (fun t => t.amount.getD 0)).sum) ∧
    (calculateStats stateW.transactions).expenses
      = some (((stateW.transactions.filter fun t => t.type == TxType.expense).map
          (fun t => t.amount.getD 0)).sum) ∧
    (calculateStats stateW.transactions).balance
      = some ((((stateW.transactions.filter fun t => t.type == TxType.income).map
          (fun t => t.amount.getD 0)).sum)
        - (((stateW.transactions.filter fun t => t.type == TxType.expense).map
          (fun t => t.amount.getD 0)).sum)) ∧
    calculateStats ({ stateW with filter := FilterCrit.income }).transactions
      = calculateStats stateW.transactions :=
  C7_stats stateW FilterCrit.income (fun t => t.amount.getD 0) (by decide)

/-- C8: on a valid input (non-empty trimmed description, amount string
parsing to a positive rational, category in the set of the type), the
submit handler prepends exactly one new transaction, carrying the rendered
Date.now value as id, the clock value as date, and the parsed amount. -/
theorem C8_add_prepends (now : Nat) (fd : FormData) (prev : List Transaction) (q : ℚ)
    (hd : jsTrim fd.description ≠ "") (hq : jsParseFloat fd.amount = some q)
    (hpos : 0 < q) (hc : fd.category ∈ categories fd.type) :
    handleSubmit now fd prev = some (newTransaction now fd :: prev) ∧
    (newTransaction now fd :: prev).length = prev.length + 1 ∧
    (newTransaction now fd).id = toString now ∧
    (newTransaction now fd).date = now ∧
    (newTransaction now fd).amount = some q := by
  have hamt : fd.amount ≠ "" := by
    intro he
    rw [he, jsParseFloat_empty] at hq
    cases hq
  refine ⟨?_, by simp, rfl, rfl, hq⟩
  unfold handleSubmit
  have hcond : (jsTrim fd.description == "" || fd.amount == "") = false := by
    simp [hd, hamt]
  rw [hcond]
  simp

theorem C8_add_prepends_witness :
    handleSubmit 3 formCoffee [] = some (newTransaction 3 formCoffee :: []) ∧
    (newTransaction 3 formCoffee :: []).length = List.length ([] : List Transaction) + 1 ∧
    (newTransaction 3 formCoffee).id = toString 3 ∧
    (newTransaction 3 formCoffee).date = 3 ∧
    (newTransaction 3 formCoffee).amount = some (mkRat 9 2) :=
  C8_add_prepends 3 formCoffee [] (mkRat 9 2) (by decide) (by decide) (by decide) (by decide)

/-- C5 counterexample: two adds in the same millisecond produce the same
Date.now().toString() id, so a store state reachable from the empty initial
state holds two transactions with equal ids. -/
theorem C5_counterexample :
    ¬ ((run [Event.setDescription "a", Event.setAmount "1", Event.submit 5,
        Event.setDescription "a", Event.setAmount "1", Event.submit 5]).transactions.map
        Transaction.id).Nodup := by decide

theorem ids_nodup_foldl (events : List Event) :
    ∀ s : AppState, ((s.transactions.map Transaction.id).Nodup) →
      (∀ n ∈ submitTimes events, toString n ∉ s.transactions.map Transaction.id) →
      (submitTimes events).Nodup →
      (((events.foldl step s).transactions).map Transaction.id).Nodup := by
  induction events with
  | nil => intro s hs _ _; exact hs
  | cons e es ih =>
    intro s hs hdisj hnd
    rw [List.foldl_cons]
    cases e with
    | setDescription d => exact ih _ hs hdisj hnd
    | setAmount a => exact ih _ hs hdisj hnd
    | setType t =>
      have htr : (step s (Event.setType t)).transactions = s.transactions := by
        simp only [step]
        split <;> rfl
      refine ih _ ?_ ?_ hnd
      · rw [htr]; exact hs
      · intro n hn; rw [htr]; exact hdisj n hn
    | setCategory c =>
      have htr : (step s (Event.setCategory c)).transactions = s.transactions := by
        simp only [step]
        split <;> rfl
      refine ih _ ?_ ?_ hnd
      · rw [htr]; exact hs
      · intro n hn; rw [htr]; exact hdisj n hn
    | submit now =>
      have hst : submitTimes (Event.submit now :: es) = now :: submitTimes es := rfl
      rw [hst] at hdisj hnd
      rw [List.nodup_cons] at hnd
      simp only [step]
      split
      · exact ih _ hs (fun n hn => hdisj n (List.mem_cons_of_mem _ hn)) hnd.2
      · rename_i txs heq
        have htxs := handleSubmit_eq_some now s.formData s.transactions txs heq
        subst htxs
        refine ih _ ?_ ?_ hnd.2
        · show ((newTransaction now s.formData :: s.transactions).map Transaction.id).Nodup
          rw [List.map_cons, List.nodup_cons]
          exact ⟨hdisj now (List.mem_cons_self _ _), hs⟩
        · intro n hn
          show toString n ∉ (newTransaction now s.formData :: s.transactions).map Transaction.id
          rw [List.map_cons, List.mem_cons]
          rintro (habs | habs)
          · have hnn : n = now := natToString_injective n now habs
            exact hnd.1 (hnn ▸ hn)
          · exact hdisj n (List.mem_cons_of_mem _ hn) habs
    | deleteTx id =>
      have hsub : ((step s (Event.deleteTx id)).transactions.map Transaction.id).Sublist
          (s.transactions.map Transaction.id) := by
        show (((deleteTransaction id s.transactions).1).map Transaction.id).Sublist _
        exact (List.filter_sublist _).map _
      refine ih _ (hs.sublist hsub) ?_ hnd
      intro n hn hmem
      exact hdisj n hn (hsub.subset hmem)
    | setFilter f => exact ih _ hs hdisj hnd
    | openModal => exact ih _ hs hdisj hnd
    | closeModal => exact ih _ hs hdisj hnd

/-- C5 amended: store ids are pairwise distinct provided the Date.now values
of the submit events of the run are pairwise distinct; two adds in the same
millisecond break uniqueness (see the counterexample). -/
theorem C5_ids_nodup (events : List Event) (hnd : (submitTimes events).Nodup) :
    ((run events).transactions.map Transaction.id).Nodup :=
  ids_nodup_foldl events initialState (by decide)
    (fun n _ => List.not_mem_nil _) hnd

theorem C5_ids_nodup_witness :
    ((run [Event.setDescription "a", Event.setAmount "1", Event.submit 5,
        Event.setDescription "b", Event.setAmount "2", Event.submit 6]).transactions.map
        Transaction.id).Nodup :=
  C5_ids_nodup [Event.setDescription "a", Event.setAmount "1", Event.submit 5,
    Event.setDescription "b", Event.setAmount "2", Event.submit 6] (by decide)

/-- Concrete-instance check for C4. -/
theorem C4_delete_returns_nothing_witness :
    (deleteTransaction "1" [txCoffee]).2 = none ∧
    ((deleteTransaction "1" [txCoffee]).1.length < [txCoffee].length ↔
      ∃ t ∈ [txCoffee], t.id = "1") :=
  C4_delete_returns_nothing "1" [txCoffee]

/-- Concrete-instance check for C9. -/
theorem C9_filter_matches_witness :
    filteredTransactions FilterCrit.all [txSalary, txCoffee] = [txSalary, txCoffee] ∧
    (filteredTransactions FilterCrit.income [txSalary, txCoffee]).Sublist [txSalary, txCoffee] ∧
    ∀ t, t ∈ filteredTransactions FilterCrit.income [txSalary, txCoffee] ↔
      t ∈ [txSalary, txCoffee] ∧ matchesFilter FilterCrit.income t.type :=
  C9_filter_matches [txSalary, txCoffee] FilterCrit.income

end FinanceTracker
